import Mathlib

/-!
Verification of the option-pricing library in src/C++ (stochastic.h,
stochastic.cpp, main.cpp).  The pricers Bachelier and BlackScholes are
embedded below as Lean functions over the real numbers; the C++ throw of
std::invalid_argument is modelled by the Except monad.  The standard normal
distribution helper (statistics.h) is not part of the repository sources,
so its pdf and cdf are modelled from the specification.
-/

open MeasureTheory hiding pdf
open Real Set Filter

/-- Modelled from the spec: statistics.h (StandardNormalDistribution) is not
in src.  Spec 4.1: pdf(x) returns (1/sqrt(2*pi)) * exp(-x^2/2). -/
noncomputable def pdf (x : ℝ) : ℝ := (1 / Real.sqrt (2 * Real.pi)) * Real.exp (-x ^ 2 / 2)

/-- Modelled from the spec: statistics.h (StandardNormalDistribution) is not
in src.  Spec 4.1: cdf(x) returns P(Z <= x) for Z distributed N(0,1),
here the Lebesgue integral of the density over (-infinity, x]. -/
noncomputable def cdf (x : ℝ) : ℝ := ∫ t in Set.Iic x, pdf t

/-- The error message thrown by both pricers on an unrecognized variant
(stochastic.cpp, both throw sites). -/
def invalidTypeMsg : String := "Option type is invalid. Check documentation"

/-- The six recognized variant tokens (spec section 6, stochastic.cpp). -/
def variantTokens : List String :=
  ["van call", "van put", "con call", "con put", "aon call", "aon put"]

/-- Standardized offset used by Bachelier (stochastic.cpp line 21). -/
noncomputable def xs (Spot Strike Vol T : ℝ) : ℝ :=
  (Strike - Spot) / (Spot * Vol * Real.sqrt T)

/-- First Black-Scholes offset (stochastic.cpp line 78). -/
noncomputable def d1 (Spot Strike r Vol T : ℝ) : ℝ :=
  (Real.log (Spot / Strike) + (r + 0.5 * Vol * Vol) * T) / (Vol * Real.sqrt T)

/-- Second Black-Scholes offset (stochastic.cpp line 79). -/
noncomputable def d2 (Spot Strike r Vol T : ℝ) : ℝ :=
  (Real.log (Spot / Strike) + (r - 0.5 * Vol * Vol) * T) / (Vol * Real.sqrt T)

/-- European option price under the Bachelier model (stochastic.cpp lines
18-57).  The C++ std::invalid_argument throw is modelled as Except.error. -/
noncomputable def Bachelier (Spot Strike Vol T : ℝ) (type : String) : Except String ℝ :=
  if Spot = Strike then
    Except.ok (Vol * Spot * Real.sqrt (0.5 * T / Real.pi))
  else if type = "van call" then
    Except.ok ((Spot - Strike) * cdf (-xs Spot Strike Vol T) +
      Spot * Vol * Real.sqrt T * pdf (-xs Spot Strike Vol T))
  else if type = "van put" then
    Except.ok ((Strike - Spot) * cdf (xs Spot Strike Vol T) +
      Spot * Vol * Real.sqrt T * pdf (xs Spot Strike Vol T))
  else if type = "con call" then
    Except.ok (cdf (-xs Spot Strike Vol T))
  else if type = "con put" then
    Except.ok (cdf (xs Spot Strike Vol T))
  else if type = "aon call" then
    Except.ok (Spot * cdf (-xs Spot Strike Vol T) +
      Spot * Vol * Real.sqrt T * pdf (-xs Spot Strike Vol T))
  else if type = "aon put" then
    Except.ok (Spot * cdf (xs Spot Strike Vol T) -
      Spot * Vol * Real.sqrt T * pdf (xs Spot Strike Vol T))
  else
    Except.error invalidTypeMsg

/-- European option price under the Black-Scholes model (stochastic.cpp lines
75-114).  The C++ std::invalid_argument throw is modelled as Except.error. -/
noncomputable def BlackScholes (Spot Strike r Vol T : ℝ) (type : String) : Except String ℝ :=
  if Spot = Strike then
    Except.ok (Vol * Spot * Real.sqrt (0.5 * T / Real.pi))
  else if type = "van call" then
    Except.ok (Spot * cdf (d1 Spot Strike r Vol T) -
      Strike * Real.exp (-r * T) * cdf (d2 Spot Strike r Vol T))
  else if type = "van put" then
    Except.ok (-Spot * cdf (-d1 Spot Strike r Vol T) +
      Strike * Real.exp (-r * T) * cdf (-d2 Spot Strike r Vol T))
  else if type = "con call" then
    Except.ok (Real.exp (-r * T) * cdf (d2 Spot Strike r Vol T))
  else if type = "con put" then
    Except.ok (Real.exp (-r * T) * cdf (-d2 Spot Strike r Vol T))
  else if type = "aon call" then
    Except.ok (Spot * pdf (d1 Spot Strike r Vol T))
  else if type = "aon put" then
    Except.ok (Spot * pdf (-d1 Spot Strike r Vol T))
  else
    Except.error invalidTypeMsg

/-- The formula table of spec section 4.2, written from the specification
text for comparison against the source-derived Bachelier definition. -/
noncomputable def bachelierSpecTable (Spot Strike Vol T : ℝ) (variant : String) : Option ℝ :=
  if variant = "van call" then
    some ((Spot - Strike) * cdf (-xs Spot Strike Vol T) +
      Spot * Vol * Real.sqrt T * pdf (-xs Spot Strike Vol T))
  else if variant = "van put" then
    some ((Strike - Spot) * cdf (xs Spot Strike Vol T) +
      Spot * Vol * Real.sqrt T * pdf (xs Spot Strike Vol T))
  else if variant = "con call" then
    some (cdf (-xs Spot Strike Vol T))
  else if variant = "con put" then
    some (cdf (xs Spot Strike Vol T))
  else if variant = "aon call" then
    some (Spot * cdf (-xs Spot Strike Vol T) +
      Spot * Vol * Real.sqrt T * pdf (-xs Spot Strike Vol T))
  else if variant = "aon put" then
    some (Spot * cdf (xs Spot Strike Vol T) -
      Spot * Vol * Real.sqrt T * pdf (xs Spot Strike Vol T))
  else
    none

/-- The twelve pricer calls made by the demonstration program, in order
(main.cpp lines 15-29).  Note the last argument string of the final call. -/
noncomputable def mainResults : List (Except String ℝ) :=
  [Bachelier 50 20 0.2 4 "van call",
   Bachelier 50 20 0.2 4 "van put",
   Bachelier 50 20 0.2 4 "con call",
   Bachelier 50 20 0.2 4 "con put",
   Bachelier 50 20 0.2 4 "aon call",
   Bachelier 50 20 0.2 4 "aon put",
   BlackScholes 50 20 0.13 0.2 4 "van call",
   BlackScholes 50 20 0.13 0.2 4 "van put",
   BlackScholes 50 20 0.13 0.2 4 "con call",
   BlackScholes 50 20 0.13 0.2 4 "con put",
   BlackScholes 50 20 0.13 0.2 4 "aon call",
   BlackScholes 50 20 0.13 0.2 4 "aon putt"]

/-! ### Properties of the modelled standard normal distribution -/

theorem pdf_pos (x : ℝ) : 0 < pdf x := by
  have h2π : 0 < Real.sqrt (2 * Real.pi) :=
    Real.sqrt_pos.mpr (by positivity)
  exact mul_pos (by positivity) (Real.exp_pos _)

theorem pdf_nonneg (x : ℝ) : 0 ≤ pdf x := (pdf_pos x).le

theorem pdf_neg (x : ℝ) : pdf (-x) = pdf x := by
  simp [pdf, neg_sq]

theorem continuous_pdf : Continuous pdf := by
  unfold pdf
  fun_prop

theorem integrable_pdf : Integrable pdf := by
  have h := (integrable_exp_neg_mul_sq (by norm_num : (0:ℝ) < 1/2)).const_mul
    (1 / Real.sqrt (2 * Real.pi))
  refine h.congr ?_
  filter_upwards with x
  unfold pdf
  ring_nf

theorem integral_pdf : ∫ x, pdf x = 1 := by
  have h : ∫ x, pdf x =
      (1 / Real.sqrt (2 * Real.pi)) * ∫ x, Real.exp (-(1/2) * x ^ 2) := by
    rw [← integral_mul_left]
    congr 1
    funext x
    unfold pdf
    ring_nf
  rw [h, integral_gaussian]
  have hπ : Real.pi / (1/2) = 2 * Real.pi := by ring
  rw [hπ]
  have hpos : (0:ℝ) < Real.sqrt (2 * Real.pi) := Real.sqrt_pos.mpr (by positivity)
  field_simp

theorem cdf_neg_eq (x : ℝ) : cdf (-x) = ∫ t in Set.Ioi x, pdf t := by
  have h := integral_comp_neg_Iic (-x) pdf
  rw [neg_neg] at h
  rw [cdf, ← h]
  simp only [pdf_neg]

theorem cdf_add_neg (x : ℝ) : cdf x + cdf (-x) = 1 := by
  rw [cdf_neg_eq, cdf, ← integral_pdf]
  exact intervalIntegral.integral_Iic_add_Ioi integrable_pdf.integrableOn
    integrable_pdf.integrableOn

theorem cdf_nonneg (x : ℝ) : 0 ≤ cdf x :=
  setIntegral_nonneg measurableSet_Iic fun t _ => pdf_nonneg t

theorem cdf_le_one (x : ℝ) : cdf x ≤ 1 := by
  have h := cdf_add_neg x
  have h2 := cdf_nonneg (-x)
  linarith

theorem cdf_zero : cdf 0 = 1 / 2 := by
  have h := cdf_add_neg 0
  rw [neg_zero] at h
  linarith

theorem cdf_sub (a b : ℝ) : cdf b - cdf a = ∫ t in a..b, pdf t :=
  intervalIntegral.integral_Iic_sub_Iic integrable_pdf.integrableOn integrable_pdf.integrableOn

theorem hasDerivAt_cdf (x : ℝ) : HasDerivAt cdf (pdf x) x := by
  have hfun : cdf = fun u => cdf 0 + ∫ t in (0:ℝ)..u, pdf t := by
    funext u
    rw [← cdf_sub 0 u]
    ring
  rw [hfun]
  exact (intervalIntegral.integral_hasDerivAt_right
    (continuous_pdf.intervalIntegrable 0 x)
    (continuous_pdf.stronglyMeasurableAtFilter volume (nhds x))
    continuous_pdf.continuousAt).const_add (cdf 0)

theorem tendsto_pdf_atBot : Tendsto pdf atBot (nhds 0) := by
  have hsq : Tendsto (fun t : ℝ => t ^ 2) atBot atTop := by
    have h := (tendsto_pow_atTop (two_ne_zero)).comp
      (tendsto_neg_atBot_atTop : Tendsto (Neg.neg : ℝ → ℝ) atBot atTop)
    refine h.congr fun t => ?_
    simp [neg_sq]
  have hneg : Tendsto (fun t : ℝ => -t ^ 2 / 2) atBot atBot := by
    have h2 : Tendsto (fun t : ℝ => -t ^ 2) atBot atBot := by
      have h3 :=
        (tendsto_neg_atTop_atBot : Tendsto (Neg.neg : ℝ → ℝ) atTop atBot).comp hsq
      exact h3
    exact h2.atBot_div_const (by norm_num)
  have hexp : Tendsto (fun t : ℝ => Real.exp (-t ^ 2 / 2)) atBot (nhds 0) :=
    Real.tendsto_exp_atBot.comp hneg
  have h := hexp.const_mul (1 / Real.sqrt (2 * Real.pi))
  rw [mul_zero] at h
  exact h

theorem hasDerivAt_pdf (t : ℝ) : HasDerivAt pdf (-t * pdf t) t := by
  have h1 : HasDerivAt (fun u : ℝ => -u ^ 2 / 2) (-t) t := by
    have h := ((hasDerivAt_pow 2 t).neg).div_const 2
    simpa using h.congr_deriv (by ring)
  have h3 := (h1.exp).const_mul (1 / Real.sqrt (2 * Real.pi))
  have heq : (1 / Real.sqrt (2 * Real.pi)) * (Real.exp (-t ^ 2 / 2) * -t) = -t * pdf t := by
    simp only [pdf]
    ring
  rw [heq] at h3
  exact h3

theorem integrable_neg_mul_pdf : Integrable (fun t : ℝ => -t * pdf t) := by
  have hg : Integrable (fun t : ℝ =>
      (1 / Real.sqrt (2 * Real.pi)) * Real.exp (-(1/4) * t ^ 2)) :=
    (integrable_exp_neg_mul_sq (by norm_num : (0:ℝ) < 1/4)).const_mul _
  refine hg.mono' ?_ ?_
  · exact (continuous_neg.mul continuous_pdf).aestronglyMeasurable
  · filter_upwards with t
    have hsqrt : (0:ℝ) < Real.sqrt (2 * Real.pi) := Real.sqrt_pos.mpr (by positivity)
    have habs : |t| ≤ Real.exp (t ^ 2 / 4) := by
      have h1 : |t| ≤ 1 + t ^ 2 / 4 := by
        nlinarith [sq_nonneg (|t| - 2), sq_abs t, abs_nonneg t]
      have h2 := Real.add_one_le_exp (t ^ 2 / 4)
      linarith
    have hkey : |t| * Real.exp (-t ^ 2 / 2) ≤ Real.exp (-(1/4) * t ^ 2) := by
      have h3 := mul_le_mul_of_nonneg_right habs (Real.exp_nonneg (-t ^ 2 / 2))
      calc |t| * Real.exp (-t ^ 2 / 2)
          ≤ Real.exp (t ^ 2 / 4) * Real.exp (-t ^ 2 / 2) := h3
        _ = Real.exp (-(1/4) * t ^ 2) := by
            rw [← Real.exp_add]
            ring_nf
    have hnorm : ‖-t * pdf t‖ = |t| * pdf t := by
      rw [norm_mul, norm_neg, Real.norm_eq_abs, Real.norm_eq_abs,
        abs_of_nonneg (pdf_nonneg t)]
    rw [hnorm]
    unfold pdf
    calc |t| * ((1 / Real.sqrt (2 * Real.pi)) * Real.exp (-t ^ 2 / 2))
        = (1 / Real.sqrt (2 * Real.pi)) * (|t| * Real.exp (-t ^ 2 / 2)) := by ring
      _ ≤ (1 / Real.sqrt (2 * Real.pi)) * Real.exp (-(1/4) * t ^ 2) := by
          exact mul_le_mul_of_nonneg_left hkey (by positivity)

theorem integral_neg_mul_pdf (y : ℝ) : ∫ t in Set.Iic y, -t * pdf t = pdf y := by
  have hderiv : ∀ t ∈ Set.Iio y, HasDerivAt pdf (-t * pdf t) t :=
    fun t _ => hasDerivAt_pdf t
  have h := integral_Iic_of_hasDerivAt_of_tendsto
    (continuous_pdf.continuousWithinAt)
    hderiv
    integrable_neg_mul_pdf.integrableOn
    tendsto_pdf_atBot
  rw [h, sub_zero]

theorem mills (y : ℝ) : -y * cdf y ≤ pdf y := by
  rw [← integral_neg_mul_pdf y]
  have h1 : -y * cdf y = ∫ t in Set.Iic y, -y * pdf t := by
    rw [cdf, integral_mul_left]
  rw [h1]
  refine setIntegral_mono_on (integrable_pdf.integrableOn.const_mul _)
    integrable_neg_mul_pdf.integrableOn measurableSet_Iic ?_
  intro t ht
  have ht' : t ≤ y := ht
  exact mul_le_mul_of_nonneg_right (by linarith) (pdf_nonneg t)

theorem gAux_nonneg (y : ℝ) : 0 ≤ y * cdf y + pdf y := by
  rcases le_or_lt 0 y with hy | hy
  · have h := mul_nonneg hy (cdf_nonneg y)
    have h2 := pdf_pos y
    linarith
  · have h := mills y
    linarith

theorem hasDerivAt_halfSq (x : ℝ) : HasDerivAt (fun u : ℝ => u ^ 2 / 2) x x := by
  have h := (hasDerivAt_pow 2 x).div_const 2
  convert h using 1
  push_cast
  ring

theorem hasDerivAt_cdfExp (x : ℝ) :
    HasDerivAt (fun u : ℝ => cdf u * Real.exp (u ^ 2 / 2))
      (Real.exp (x ^ 2 / 2) * (pdf x + x * cdf x)) x := by
  have h := (hasDerivAt_cdf x).mul (hasDerivAt_halfSq x).exp
  refine h.congr_deriv ?_
  ring

theorem cdfExp_monotone : Monotone fun x : ℝ => cdf x * Real.exp (x ^ 2 / 2) := by
  apply monotone_of_deriv_nonneg
  · exact fun x => (hasDerivAt_cdfExp x).differentiableAt
  · intro x
    rw [(hasDerivAt_cdfExp x).deriv]
    have hg := gAux_nonneg x
    exact mul_nonneg (Real.exp_nonneg _) (by linarith)

theorem hasDerivAt_cdfNeg (x : ℝ) : HasDerivAt (fun u : ℝ => cdf (-u)) (-pdf x) x := by
  have hneg : HasDerivAt (fun u : ℝ => -u) (-1 : ℝ) x := (hasDerivAt_id x).neg
  have h := (hasDerivAt_cdf (-x)).comp x hneg
  have h2 : pdf (-x) * -1 = -pdf x := by rw [pdf_neg]; ring
  rw [h2] at h
  exact h

theorem hasDerivAt_cdfNegExp (x : ℝ) :
    HasDerivAt (fun u : ℝ => cdf (-u) * Real.exp (u ^ 2 / 2))
      (Real.exp (x ^ 2 / 2) * (x * cdf (-x) - pdf x)) x := by
  have h := (hasDerivAt_cdfNeg x).mul (hasDerivAt_halfSq x).exp
  refine h.congr_deriv ?_
  ring

theorem cdfNegExp_antitone : Antitone fun x : ℝ => cdf (-x) * Real.exp (x ^ 2 / 2) := by
  apply antitone_of_deriv_nonpos
  · exact fun x => (hasDerivAt_cdfNegExp x).differentiableAt
  · intro x
    rw [(hasDerivAt_cdfNegExp x).deriv]
    have hg := gAux_nonneg (-x)
    rw [pdf_neg] at hg
    have hfac : x * cdf (-x) - pdf x ≤ 0 := by linarith
    exact mul_nonpos_iff.mpr (Or.inl ⟨Real.exp_nonneg _, hfac⟩)

theorem call_core (S x s : ℝ) (hS : 0 ≤ S) (hs : 0 ≤ s) :
    0 ≤ S * cdf (x + s) - S * Real.exp (-s * x - s ^ 2 / 2) * cdf x := by
  have hmono := cdfExp_monotone (show x ≤ x + s by linarith)
  have hE : (0:ℝ) < Real.exp (-(x + s) ^ 2 / 2) := Real.exp_pos _
  have h2 := mul_le_mul_of_nonneg_right hmono hE.le
  have hL : cdf x * Real.exp (x ^ 2 / 2) * Real.exp (-(x + s) ^ 2 / 2) =
      cdf x * Real.exp (-s * x - s ^ 2 / 2) := by
    rw [mul_assoc, ← Real.exp_add]
    congr 2
    ring
  have hR : cdf (x + s) * Real.exp ((x + s) ^ 2 / 2) * Real.exp (-(x + s) ^ 2 / 2) =
      cdf (x + s) := by
    rw [mul_assoc, ← Real.exp_add]
    have hz : (x + s) ^ 2 / 2 + -(x + s) ^ 2 / 2 = 0 := by ring
    rw [hz, Real.exp_zero, mul_one]
  rw [hL, hR] at h2
  nlinarith [mul_le_mul_of_nonneg_left h2 hS]

theorem put_core (S x s : ℝ) (hS : 0 ≤ S) (hs : 0 ≤ s) :
    0 ≤ -S * cdf (-(x + s)) + S * Real.exp (-s * x - s ^ 2 / 2) * cdf (-x) := by
  have hmono := cdfNegExp_antitone (show x ≤ x + s by linarith)
  have hE : (0:ℝ) < Real.exp (-(x + s) ^ 2 / 2) := Real.exp_pos _
  have h2 := mul_le_mul_of_nonneg_right hmono hE.le
  have hL : cdf (-x) * Real.exp (x ^ 2 / 2) * Real.exp (-(x + s) ^ 2 / 2) =
      cdf (-x) * Real.exp (-s * x - s ^ 2 / 2) := by
    rw [mul_assoc, ← Real.exp_add]
    congr 2
    ring
  have hR : cdf (-(x + s)) * Real.exp ((x + s) ^ 2 / 2) * Real.exp (-(x + s) ^ 2 / 2) =
      cdf (-(x + s)) := by
    rw [mul_assoc, ← Real.exp_add]
    have hz : (x + s) ^ 2 / 2 + -(x + s) ^ 2 / 2 = 0 := by ring
    rw [hz, Real.exp_zero, mul_one]
  rw [hL, hR] at h2
  nlinarith [mul_le_mul_of_nonneg_left h2 hS]

theorem d1_eq_d2_add (S K r σ T : ℝ) (hσ : 0 < σ) (hT : 0 < T) :
    d1 S K r σ T = d2 S K r σ T + σ * Real.sqrt T := by
  have hsT : Real.sqrt T ≠ 0 := ne_of_gt (Real.sqrt_pos.mpr hT)
  have hTT : Real.sqrt T * Real.sqrt T = T := Real.mul_self_sqrt hT.le
  have hsub : d1 S K r σ T - d2 S K r σ T = σ * Real.sqrt T := by
    unfold d1 d2
    rw [div_sub_div_same]
    have hnum : Real.log (S / K) + (r + 0.5 * σ * σ) * T -
        (Real.log (S / K) + (r - 0.5 * σ * σ) * T) = σ * σ * T := by
      ring
    rw [hnum]
    field_simp
    linear_combination (-(σ * σ)) * hTT
  linarith

theorem strike_exp_eq (S K r σ T : ℝ) (hS : 0 < S) (hK : 0 < K) (hσ : 0 < σ) (hT : 0 < T) :
    K * Real.exp (-r * T) =
      S * Real.exp (-(σ * Real.sqrt T) * d2 S K r σ T - (σ * Real.sqrt T) ^ 2 / 2) := by
  have hsT : 0 < Real.sqrt T := Real.sqrt_pos.mpr hT
  have hTT : Real.sqrt T * Real.sqrt T = T := Real.mul_self_sqrt hT.le
  have hd2 : σ * Real.sqrt T * d2 S K r σ T = Real.log (S / K) + (r - 0.5 * σ * σ) * T := by
    unfold d2
    field_simp
  have hsq : (σ * Real.sqrt T) ^ 2 = σ * σ * T := by
    rw [pow_two]
    calc σ * Real.sqrt T * (σ * Real.sqrt T) = σ * σ * (Real.sqrt T * Real.sqrt T) := by ring
      _ = σ * σ * T := by rw [hTT]
  have hexp : -(σ * Real.sqrt T) * d2 S K r σ T - (σ * Real.sqrt T) ^ 2 / 2 =
      Real.log (K / S) - r * T := by
    have hlog : Real.log (K / S) = -Real.log (S / K) := by
      rw [← Real.log_inv]
      congr 1
      rw [inv_div]
    rw [hlog, neg_mul, hd2, hsq]
    ring
  rw [hexp, Real.exp_sub, Real.exp_log (by positivity : (0:ℝ) < K / S)]
  rw [neg_mul, Real.exp_neg]
  field_simp
  ring

theorem xs_mul (S K σ T : ℝ) (hS : 0 < S) (hσ : 0 < σ) (hT : 0 < T) :
    xs S K σ T * (S * σ * Real.sqrt T) = K - S := by
  have hsT : Real.sqrt T ≠ 0 := ne_of_gt (Real.sqrt_pos.mpr hT)
  unfold xs
  field_simp

theorem bach_van_call_nonneg (S K σ T : ℝ) (hS : 0 < S) (hσ : 0 < σ) (hT : 0 < T) :
    0 ≤ (S - K) * cdf (-xs S K σ T) + S * σ * Real.sqrt T * pdf (-xs S K σ T) := by
  have ha : 0 < S * σ * Real.sqrt T := by positivity
  have hx := xs_mul S K σ T hS hσ hT
  have key : (S - K) * cdf (-xs S K σ T) + S * σ * Real.sqrt T * pdf (-xs S K σ T) =
      (S * σ * Real.sqrt T) *
        (-xs S K σ T * cdf (-xs S K σ T) + pdf (-xs S K σ T)) := by
    linear_combination cdf (-xs S K σ T) * hx
  rw [key]
  exact mul_nonneg ha.le (gAux_nonneg _)

theorem bach_van_put_nonneg (S K σ T : ℝ) (hS : 0 < S) (hσ : 0 < σ) (hT : 0 < T) :
    0 ≤ (K - S) * cdf (xs S K σ T) + S * σ * Real.sqrt T * pdf (xs S K σ T) := by
  have ha : 0 < S * σ * Real.sqrt T := by positivity
  have hx := xs_mul S K σ T hS hσ hT
  have key : (K - S) * cdf (xs S K σ T) + S * σ * Real.sqrt T * pdf (xs S K σ T) =
      (S * σ * Real.sqrt T) *
        (xs S K σ T * cdf (xs S K σ T) + pdf (xs S K σ T)) := by
    linear_combination (-(cdf (xs S K σ T))) * hx
  rw [key]
  exact mul_nonneg ha.le (gAux_nonneg _)

/-! ### Claim theorems -/

/-- C1: whenever Spot = Strike, both Bachelier and BlackScholes return
Volatility * Spot * sqrt(0.5 * Maturity / pi) for every variant string
(recognized or not) and, for BlackScholes, every Rate. -/
theorem atm_value_all_variants (Spot Vol T r : ℝ) (type : String) :
    Bachelier Spot Spot Vol T type =
      Except.ok (Vol * Spot * Real.sqrt (0.5 * T / Real.pi)) ∧
    BlackScholes Spot Spot r Vol T type =
      Except.ok (Vol * Spot * Real.sqrt (0.5 * T / Real.pi)) := by
  constructor <;> simp [Bachelier, BlackScholes]

/-- C2 counterexample: with Spot = Strike an unrecognized variant string does
not fail; both pricers return the at-the-money value, refuting the claim
that the Invalid-Argument error is raised for all parameter values. -/
theorem invalid_variant_atm_returns_ok :
    Bachelier 1 1 1 1 "bogus" = Except.ok (1 * 1 * Real.sqrt (0.5 * 1 / Real.pi)) ∧
    BlackScholes 1 1 0 1 1 "bogus" =
      Except.ok (1 * 1 * Real.sqrt (0.5 * 1 / Real.pi)) := by
  constructor <;> simp [Bachelier, BlackScholes]

/-- C2 amended: whenever Spot differs from Strike, an unrecognized variant
string makes both pricers fail with the invalid-type error message and no
value is returned. -/
theorem invalid_variant_errors (S K σ T r : ℝ) (type : String)
    (hty : type ∉ variantTokens) (hSK : S ≠ K) :
    Bachelier S K σ T type = Except.error invalidTypeMsg ∧
    BlackScholes S K r σ T type = Except.error invalidTypeMsg := by
  simp only [variantTokens, List.mem_cons, List.not_mem_nil, or_false, not_or] at hty
  obtain ⟨h1, h2, h3, h4, h5, h6⟩ := hty
  constructor <;> simp [Bachelier, BlackScholes, hSK, h1, h2, h3, h4, h5, h6]

theorem invalid_variant_errors_witness :
    Bachelier 2 1 1 1 "bogus" = Except.error invalidTypeMsg ∧
    BlackScholes 2 1 0 1 1 "bogus" = Except.error invalidTypeMsg :=
  invalid_variant_errors 2 1 1 1 0 "bogus" (by decide) (by norm_num)

/-- C3: away from the money, BlackScholes returns the stated vanilla and
cash-or-nothing closed forms in terms of cdf at d1 and d2. -/
theorem blackScholes_vanilla_digital_formulas (S K r σ T : ℝ)
    (hS : 0 < S) (hK : 0 < K) (hσ : 0 < σ) (hT : 0 < T) (hSK : S ≠ K) :
    BlackScholes S K r σ T "van call" =
      Except.ok (S * cdf (d1 S K r σ T) -
        K * Real.exp (-r * T) * cdf (d2 S K r σ T)) ∧
    BlackScholes S K r σ T "van put" =
      Except.ok (-S * cdf (-d1 S K r σ T) +
        K * Real.exp (-r * T) * cdf (-d2 S K r σ T)) ∧
    BlackScholes S K r σ T "con call" =
      Except.ok (Real.exp (-r * T) * cdf (d2 S K r σ T)) ∧
    BlackScholes S K r σ T "con put" =
      Except.ok (Real.exp (-r * T) * cdf (-d2 S K r σ T)) := by
  refine ⟨?_, ?_, ?_, ?_⟩ <;> simp [BlackScholes, hSK]

theorem blackScholes_vanilla_digital_formulas_witness :
    BlackScholes 2 1 1 1 1 "van call" =
      Except.ok (2 * cdf (d1 2 1 1 1 1) -
        1 * Real.exp (-1 * 1) * cdf (d2 2 1 1 1 1)) ∧
    BlackScholes 2 1 1 1 1 "van put" =
      Except.ok (-2 * cdf (-d1 2 1 1 1 1) +
        1 * Real.exp (-1 * 1) * cdf (-d2 2 1 1 1 1)) ∧
    BlackScholes 2 1 1 1 1 "con call" =
      Except.ok (Real.exp (-1 * 1) * cdf (d2 2 1 1 1 1)) ∧
    BlackScholes 2 1 1 1 1 "con put" =
      Except.ok (Real.exp (-1 * 1) * cdf (-d2 2 1 1 1 1)) :=
  blackScholes_vanilla_digital_formulas 2 1 1 1 1 (by norm_num) (by norm_num)
    (by norm_num) (by norm_num) (by norm_num)

/-- C4: away from the money, the BlackScholes asset-or-nothing variants
return Spot times the normal density (pdf, not cdf) at d1 and -d1. -/
theorem blackScholes_aon_uses_pdf (S K r σ T : ℝ)
    (hS : 0 < S) (hK : 0 < K) (hσ : 0 < σ) (hT : 0 < T) (hSK : S ≠ K) :
    BlackScholes S K r σ T "aon call" = Except.ok (S * pdf (d1 S K r σ T)) ∧
    BlackScholes S K r σ T "aon put" = Except.ok (S * pdf (-d1 S K r σ T)) := by
  constructor <;> simp [BlackScholes, hSK]

theorem blackScholes_aon_uses_pdf_witness :
    BlackScholes 2 1 1 1 1 "aon call" = Except.ok (2 * pdf (d1 2 1 1 1 1)) ∧
    BlackScholes 2 1 1 1 1 "aon put" = Except.ok (2 * pdf (-d1 2 1 1 1 1)) :=
  blackScholes_aon_uses_pdf 2 1 1 1 1 (by norm_num) (by norm_num) (by norm_num)
    (by norm_num) (by norm_num)

/-- C5: away from the money, for each of the six recognized variants the
Bachelier pricer returns exactly the section 4.2 table formula at the
standardized offset xs; in particular the aon put row yields
Spot*cdf(xs) - Spot*Vol*sqrt(T)*pdf(xs). -/
theorem bachelier_matches_spec_table (S K σ T v : ℝ) (type : String)
    (hS : 0 < S) (hσ : 0 < σ) (hT : 0 < T) (hSK : S ≠ K)
    (hv : bachelierSpecTable S K σ T type = some v) :
    Bachelier S K σ T type = Except.ok v ∧
    (type = "aon put" →
      v = S * cdf (xs S K σ T) - S * σ * Real.sqrt T * pdf (xs S K σ T)) := by
  unfold bachelierSpecTable at hv
  split_ifs at hv with h1 h2 h3 h4 h5 h6
  · injection hv with hv
    subst hv h1
    exact ⟨by simp [Bachelier, hSK], fun h => absurd h (by decide)⟩
  · injection hv with hv
    subst hv h2
    exact ⟨by simp [Bachelier, hSK], fun h => absurd h (by decide)⟩
  · injection hv with hv
    subst hv h3
    exact ⟨by simp [Bachelier, hSK], fun h => absurd h (by decide)⟩
  · injection hv with hv
    subst hv h4
    exact ⟨by simp [Bachelier, hSK], fun h => absurd h (by decide)⟩
  · injection hv with hv
    subst hv h5
    exact ⟨by simp [Bachelier, hSK], fun h => absurd h (by decide)⟩
  · injection hv with hv
    subst hv h6
    exact ⟨by simp [Bachelier, hSK], fun _ => rfl⟩

theorem bachelier_matches_spec_table_witness :
    Bachelier 2 1 1 1 "aon put" = Except.ok
      (2 * cdf (xs 2 1 1 1) - 2 * 1 * Real.sqrt 1 * pdf (xs 2 1 1 1)) ∧
    ("aon put" = "aon put" →
      2 * cdf (xs 2 1 1 1) - 2 * 1 * Real.sqrt 1 * pdf (xs 2 1 1 1) =
        2 * cdf (xs 2 1 1 1) - 2 * 1 * Real.sqrt 1 * pdf (xs 2 1 1 1)) :=
  bachelier_matches_spec_table 2 1 1 1
    (2 * cdf (xs 2 1 1 1) - 2 * 1 * Real.sqrt 1 * pdf (xs 2 1 1 1)) "aon put"
    (by norm_num) (by norm_num) (by norm_num) (by norm_num)
    (by simp [bachelierSpecTable])

/-- C6: vanilla put-call parity for BlackScholes away from the money: the
call price minus the put price equals S - K*exp(-r*T) exactly. -/
theorem blackScholes_put_call_parity (S K r σ T c p : ℝ)
    (hS : 0 < S) (hK : 0 < K) (hσ : 0 < σ) (hT : 0 < T) (hSK : S ≠ K)
    (hc : BlackScholes S K r σ T "van call" = Except.ok c)
    (hp : BlackScholes S K r σ T "van put" = Except.ok p) :
    c - p = S - K * Real.exp (-r * T) := by
  simp [BlackScholes, hSK] at hc hp
  simp only [neg_mul]
  have h1 := cdf_add_neg (d1 S K r σ T)
  have h2 := cdf_add_neg (d2 S K r σ T)
  linear_combination (-1) * hc + hp + S * h1 - K * Real.exp (-(r * T)) * h2

theorem blackScholes_put_call_parity_witness :
    2 * cdf (d1 2 1 1 1 1) - 1 * Real.exp (-1 * 1) * cdf (d2 2 1 1 1 1) -
      (-2 * cdf (-d1 2 1 1 1 1) + 1 * Real.exp (-1 * 1) * cdf (-d2 2 1 1 1 1)) =
      2 - 1 * Real.exp (-1 * 1) :=
  blackScholes_put_call_parity 2 1 1 1 1
    (2 * cdf (d1 2 1 1 1 1) - 1 * Real.exp (-1 * 1) * cdf (d2 2 1 1 1 1))
    (-2 * cdf (-d1 2 1 1 1 1) + 1 * Real.exp (-1 * 1) * cdf (-d2 2 1 1 1 1))
    (by norm_num) (by norm_num) (by norm_num) (by norm_num) (by norm_num)
    (by simp [BlackScholes]) (by simp [BlackScholes])

/-- C7 counterexample: at the money (S = K) both cash-or-nothing prices equal
the at-the-money value, and their sum differs from exp(-r*T); the parity
fails without the S different from K restriction. -/
theorem con_parity_fails_atm :
    BlackScholes 1 1 0 1 1 "con call" =
      Except.ok (1 * 1 * Real.sqrt (0.5 * 1 / Real.pi)) ∧
    BlackScholes 1 1 0 1 1 "con put" =
      Except.ok (1 * 1 * Real.sqrt (0.5 * 1 / Real.pi)) ∧
    1 * 1 * Real.sqrt (0.5 * 1 / Real.pi) + 1 * 1 * Real.sqrt (0.5 * 1 / Real.pi) ≠
      Real.exp (-0 * 1) := by
  refine ⟨by simp [BlackScholes], by simp [BlackScholes], ?_⟩
  have hπ : (3:ℝ) < Real.pi := Real.pi_gt_three
  have h1 : Real.sqrt (0.5 * 1 / Real.pi) < 1/2 := by
    rw [Real.sqrt_lt' (by norm_num)]
    rw [div_lt_iff₀ (by linarith)]
    nlinarith
  intro h
  rw [show (-0 : ℝ) * 1 = 0 by ring, Real.exp_zero] at h
  nlinarith [Real.sqrt_nonneg (0.5 * 1 / Real.pi)]

/-- C7 amended: cash-or-nothing parity for BlackScholes holds away from the
money: the con call and con put prices sum to exp(-r*T) exactly. -/
theorem blackScholes_con_parity (S K r σ T c p : ℝ)
    (hS : 0 < S) (hK : 0 < K) (hσ : 0 < σ) (hT : 0 < T) (hSK : S ≠ K)
    (hc : BlackScholes S K r σ T "con call" = Except.ok c)
    (hp : BlackScholes S K r σ T "con put" = Except.ok p) :
    c + p = Real.exp (-r * T) := by
  simp [BlackScholes, hSK] at hc hp
  simp only [neg_mul]
  have h2 := cdf_add_neg (d2 S K r σ T)
  linear_combination (-1) * hc + (-1) * hp + Real.exp (-(r * T)) * h2

theorem blackScholes_con_parity_witness :
    Real.exp (-1 * 1) * cdf (d2 2 1 1 1 1) +
      Real.exp (-1 * 1) * cdf (-d2 2 1 1 1 1) = Real.exp (-1 * 1) :=
  blackScholes_con_parity 2 1 1 1 1
    (Real.exp (-1 * 1) * cdf (d2 2 1 1 1 1))
    (Real.exp (-1 * 1) * cdf (-d2 2 1 1 1 1))
    (by norm_num) (by norm_num) (by norm_num) (by norm_num) (by norm_num)
    (by simp [BlackScholes]) (by simp [BlackScholes])

/-- C9: the demonstration program's final pricer call passes the
unrecognized variant string "aon putt", so that call raises the
Invalid-Variant error rather than succeeding; the harness therefore cannot
print all twelve labeled lines and exit 0. -/
theorem main_last_call_errors :
    BlackScholes 50 20 0.13 0.2 4 "aon putt" = Except.error invalidTypeMsg ∧
    Except.error invalidTypeMsg ∈ mainResults := by
  have h : BlackScholes 50 20 0.13 0.2 4 "aon putt" = Except.error invalidTypeMsg := by
    simp [BlackScholes]
  refine ⟨h, ?_⟩
  rw [← h]
  simp [mainResults]

/-- C10: Bachelier vanilla put-call parity without discounting away from the
money: the call price minus the put price equals Spot - Strike exactly. -/
theorem bachelier_put_call_parity (S K σ T c p : ℝ)
    (hS : 0 < S) (hK : 0 < K) (hσ : 0 < σ) (hT : 0 < T) (hSK : S ≠ K)
    (hc : Bachelier S K σ T "van call" = Except.ok c)
    (hp : Bachelier S K σ T "van put" = Except.ok p) :
    c - p = S - K := by
  simp [Bachelier, hSK] at hc hp
  have h1 := cdf_add_neg (-xs S K σ T)
  rw [neg_neg] at h1
  have h2 := pdf_neg (xs S K σ T)
  linear_combination (-1) * hc + hp + (S - K) * h1 + (S * σ * Real.sqrt T) * h2

theorem bachelier_put_call_parity_witness :
    (2 - 1) * cdf (-xs 2 1 1 1) + 2 * 1 * Real.sqrt 1 * pdf (-xs 2 1 1 1) -
      ((1 - 2) * cdf (xs 2 1 1 1) + 2 * 1 * Real.sqrt 1 * pdf (xs 2 1 1 1)) =
      2 - 1 :=
  bachelier_put_call_parity 2 1 1 1
    ((2 - 1) * cdf (-xs 2 1 1 1) + 2 * 1 * Real.sqrt 1 * pdf (-xs 2 1 1 1))
    ((1 - 2) * cdf (xs 2 1 1 1) + 2 * 1 * Real.sqrt 1 * pdf (xs 2 1 1 1))
    (by norm_num) (by norm_num) (by norm_num) (by norm_num) (by norm_num)
    (by simp [Bachelier]) (by simp [Bachelier])

theorem pdf_half_eq : pdf (1/2 : ℝ) =
    1 / Real.sqrt (2 * Real.pi) * Real.exp (-(1/8 : ℝ)) := by
  unfold pdf
  norm_num

theorem sqrt_two_pi_lt : Real.sqrt (2 * Real.pi) < 3 * Real.exp (-(1/8 : ℝ)) := by
  have h1 : Real.sqrt (2 * Real.pi) < 21/8 := by
    rw [Real.sqrt_lt' (by norm_num)]
    nlinarith [Real.pi_lt_d2]
  have h2 : (7:ℝ)/8 < Real.exp (-(1/8 : ℝ)) := by
    have h := Real.add_one_lt_exp (show (-(1/8) : ℝ) ≠ 0 by norm_num)
    linarith
  linarith

theorem one_lt_three_pdf_half : 1 < 3 * pdf (1/2 : ℝ) := by
  have hs : 0 < Real.sqrt (2 * Real.pi) := Real.sqrt_pos.mpr (by positivity)
  rw [pdf_half_eq, show (3:ℝ) * (1 / Real.sqrt (2 * Real.pi) * Real.exp (-(1/8 : ℝ))) =
    3 * Real.exp (-(1/8 : ℝ)) / Real.sqrt (2 * Real.pi) by ring]
  rw [lt_div_iff₀ hs, one_mul]
  exact sqrt_two_pi_lt

theorem cdf_neg_half_lt_pdf_neg_half : cdf (-(1/2 : ℝ)) < pdf (-(1/2 : ℝ)) := by
  have hint : cdf (1/2 : ℝ) - cdf 0 = ∫ t in (0:ℝ)..(1/2 : ℝ), pdf t := cdf_sub 0 (1/2)
  have hlow : (1/2 : ℝ) * pdf (1/2 : ℝ) ≤ ∫ t in (0:ℝ)..(1/2 : ℝ), pdf t := by
    have hconst : ∫ _t in (0:ℝ)..(1/2 : ℝ), pdf (1/2 : ℝ) = (1/2 : ℝ) * pdf (1/2 : ℝ) := by
      rw [intervalIntegral.integral_const, smul_eq_mul]
      norm_num
    rw [← hconst]
    apply intervalIntegral.integral_mono_on (by norm_num)
      (intervalIntegrable_const) (continuous_pdf.intervalIntegrable 0 (1/2))
    intro t ht
    obtain ⟨ht0, ht1⟩ := ht
    unfold pdf
    refine mul_le_mul_of_nonneg_left ?_ (by positivity)
    refine Real.exp_le_exp.mpr ?_
    nlinarith
  have hsum := cdf_add_neg (1/2 : ℝ)
  have hc0 := cdf_zero
  have hp3 := one_lt_three_pdf_half
  have hpn := pdf_neg (1/2 : ℝ)
  linarith

/-- C8 counterexample: with Spot=2, Strike=1, Volatility=1, Maturity=1 the
Bachelier asset-or-nothing put returns a strictly negative price, refuting
non-negativity over all six variants and both pricers. -/
theorem bachelier_aon_put_negative :
    Bachelier 2 1 1 1 "aon put" = Except.ok
      (2 * cdf (xs 2 1 1 1) - 2 * 1 * Real.sqrt 1 * pdf (xs 2 1 1 1)) ∧
    2 * cdf (xs 2 1 1 1) - 2 * 1 * Real.sqrt 1 * pdf (xs 2 1 1 1) < 0 := by
  have hxs : xs 2 1 1 1 = -(1/2 : ℝ) := by
    unfold xs
    rw [Real.sqrt_one]
    norm_num
  constructor
  · simp [Bachelier]
  · rw [hxs, Real.sqrt_one]
    have h := cdf_neg_half_lt_pdf_neg_half
    linarith

theorem bach_nonneg (S K σ T v : ℝ) (type : String)
    (hS : 0 < S) (hσ : 0 < σ) (hT : 0 < T)
    (hty : type ∈ variantTokens) (hne : type ≠ "aon put")
    (hB : Bachelier S K σ T type = Except.ok v) : 0 ≤ v := by
  have hsT : 0 < Real.sqrt T := Real.sqrt_pos.mpr hT
  replace hty : type ∈
    ["van call", "van put", "con call", "con put", "aon call", "aon put"] := hty
  by_cases hSK : S = K
  · subst hSK
    simp [Bachelier] at hB
    rw [← hB]
    positivity
  · fin_cases hty
    · simp [Bachelier, hSK] at hB
      rw [← hB]
      exact bach_van_call_nonneg S K σ T hS hσ hT
    · simp [Bachelier, hSK] at hB
      rw [← hB]
      exact bach_van_put_nonneg S K σ T hS hσ hT
    · simp [Bachelier, hSK] at hB
      rw [← hB]
      exact cdf_nonneg _
    · simp [Bachelier, hSK] at hB
      rw [← hB]
      exact cdf_nonneg _
    · simp [Bachelier, hSK] at hB
      rw [← hB]
      exact add_nonneg (mul_nonneg hS.le (cdf_nonneg _))
        (mul_nonneg (by positivity) (pdf_nonneg _))
    · exact absurd rfl hne

theorem bs_nonneg (S K r σ T v : ℝ) (type : String)
    (hS : 0 < S) (hK : 0 < K) (hσ : 0 < σ) (hT : 0 < T)
    (hty : type ∈ variantTokens)
    (hB : BlackScholes S K r σ T type = Except.ok v) : 0 ≤ v := by
  have hsT : 0 < Real.sqrt T := Real.sqrt_pos.mpr hT
  replace hty : type ∈
    ["van call", "van put", "con call", "con put", "aon call", "aon put"] := hty
  by_cases hSK : S = K
  · subst hSK
    simp [BlackScholes] at hB
    rw [← hB]
    positivity
  · fin_cases hty
    · unfold BlackScholes at hB
      rw [if_neg hSK, if_pos rfl] at hB
      rw [← Except.ok.inj hB, d1_eq_d2_add S K r σ T hσ hT,
        strike_exp_eq S K r σ T hS hK hσ hT]
      exact call_core S (d2 S K r σ T) (σ * Real.sqrt T) hS.le (by positivity)
    · unfold BlackScholes at hB
      rw [if_neg hSK, if_neg (by decide), if_pos rfl] at hB
      rw [← Except.ok.inj hB, d1_eq_d2_add S K r σ T hσ hT,
        strike_exp_eq S K r σ T hS hK hσ hT]
      exact put_core S (d2 S K r σ T) (σ * Real.sqrt T) hS.le (by positivity)
    · simp [BlackScholes, hSK] at hB
      rw [← hB]
      exact mul_nonneg (Real.exp_nonneg _) (cdf_nonneg _)
    · simp [BlackScholes, hSK] at hB
      rw [← hB]
      exact mul_nonneg (Real.exp_nonneg _) (cdf_nonneg _)
    · simp [BlackScholes, hSK] at hB
      rw [← hB]
      exact mul_nonneg hS.le (pdf_nonneg _)
    · simp [BlackScholes, hSK] at hB
      rw [← hB]
      exact mul_nonneg hS.le (pdf_nonneg _)

/-- C8 amended: for positive Spot, Strike, Volatility and Maturity, every
recognized variant yields a non-negative price from both pricers, except the
Bachelier asset-or-nothing put, which can be negative. -/
theorem prices_nonneg (S K r σ T v : ℝ) (type : String)
    (hS : 0 < S) (hK : 0 < K) (hσ : 0 < σ) (hT : 0 < T)
    (hty : type ∈ variantTokens)
    (h : (type ≠ "aon put" ∧ Bachelier S K σ T type = Except.ok v) ∨
      BlackScholes S K r σ T type = Except.ok v) :
    0 ≤ v := by
  rcases h with ⟨hne, hB⟩ | hBS
  · exact bach_nonneg S K σ T v type hS hσ hT hty hne hB
  · exact bs_nonneg S K r σ T v type hS hK hσ hT hty hBS

theorem prices_nonneg_witness : 0 ≤ 50 * pdf (d1 50 20 0.13 0.2 4) :=
  prices_nonneg 50 20 0.13 0.2 4 (50 * pdf (d1 50 20 0.13 0.2 4)) "aon call"
    (by norm_num) (by norm_num) (by norm_num) (by norm_num)
    (by decide) (Or.inr (by simp [BlackScholes]))
